import Mathlib

/-!
# Verification of the `web_crawler` core against its specification

This file gives a shallow embedding, in Lean 4, of the parts of the
`web_crawler` Python repository that its specification makes claims about:

* `utils/helpers.py` — URL normalization (`normalize_url`), text cleaning
  (`clean_text`) and the normalized content fingerprint
  (`generate_content_hash`);
* `crawler/url_manager.py` — the Redis-backed frontier (`URLManager`);
* `utils/database.py` — the SQLite content store (`DatabaseManager`);
* `crawler/content_processor.py` — the heuristic HTML extractor
  (`ContentProcessor`);
* `crawler/core_crawler.py` — the crawl loop (`WebCrawler`).

Python strings are embedded as Lean `String`s, machine integers as `Nat`
with explicit reduction modulo `2 ^ 32` where the source (MD5) overflows,
and fallible operations as `Except`/`Option`.  The CPython 3.11 semantics
of `urllib.parse.urlparse`/`urlunparse`, which `normalize_url` calls, are
embedded directly; the two pieces of the standard library that cannot be
embedded (Unicode NFKC normalization of non-ASCII authorities and bracketed
IPv6 host validation) are abstracted as an explicit environment `PyEnv`,
and every theorem below quantifies over that environment or never reaches
those branches.  MD5 itself (RFC 1321) is implemented in full so that both
fingerprints used by the repository are executable.
-/

namespace WebCrawler

/-! ## MD5 (RFC 1321)

`hashlib.md5(x).hexdigest()` over UTF-8 bytes, implemented over `Nat` with
explicit `% 2 ^ 32` arithmetic. -/

/-- UTF-8 encoding of one Unicode scalar value, as a list of byte values. -/
def utf8Char (c : Char) : List Nat :=
  let n := c.toNat
  if n < 0x80 then [n]
  else if n < 0x800 then
    [0xC0 ||| (n >>> 6), 0x80 ||| (n &&& 0x3F)]
  else if n < 0x10000 then
    [0xE0 ||| (n >>> 12), 0x80 ||| ((n >>> 6) &&& 0x3F), 0x80 ||| (n &&& 0x3F)]
  else
    [0xF0 ||| (n >>> 18), 0x80 ||| ((n >>> 12) &&& 0x3F),
     0x80 ||| ((n >>> 6) &&& 0x3F), 0x80 ||| (n &&& 0x3F)]

/-- UTF-8 encoding of a string (Python `str.encode()`), as byte values. -/
def utf8Bytes (s : String) : List Nat :=
  s.data.foldr (fun c acc => utf8Char c ++ acc) []

/-- The 64 MD5 sine-derived round constants. -/
def md5K : List Nat :=
  [0xd76aa478, 0xe8c7b756, 0x242070db, 0xc1bdceee, 0xf57c0faf, 0x4787c62a, 0xa8304613, 0xfd469501,
   0x698098d8, 0x8b44f7af, 0xffff5bb1, 0x895cd7be, 0x6b901122, 0xfd987193, 0xa679438e, 0x49b40821,
   0xf61e2562, 0xc040b340, 0x265e5a51, 0xe9b6c7aa, 0xd62f105d, 0x02441453, 0xd8a1e681, 0xe7d3fbc8,
   0x21e1cde6, 0xc33707d6, 0xf4d50d87, 0x455a14ed, 0xa9e3e905, 0xfcefa3f8, 0x676f02d9, 0x8d2a4c8a,
   0xfffa3942, 0x8771f681, 0x6d9d6122, 0xfde5380c, 0xa4beea44, 0x4bdecfa9, 0xf6bb4b60, 0xbebfbc70,
   0x289b7ec6, 0xeaa127fa, 0xd4ef3085, 0x04881d05, 0xd9d4d039, 0xe6db99e5, 0x1fa27cf8, 0xc4ac5665,
   0xf4292244, 0x432aff97, 0xab9423a7, 0xfc93a039, 0x655b59c3, 0x8f0ccc92, 0xffeff47d, 0x85845dd1,
   0x6fa87e4f, 0xfe2ce6e0, 0xa3014314, 0x4e0811a1, 0xf7537e82, 0xbd3af235, 0x2ad7d2bb, 0xeb86d391]

/-- The 64 MD5 per-round left-rotation amounts. -/
def md5S : List Nat :=
  [7, 12, 17, 22, 7, 12, 17, 22, 7, 12, 17, 22, 7, 12, 17, 22,
   5, 9, 14, 20, 5, 9, 14, 20, 5, 9, 14, 20, 5, 9, 14, 20,
   4, 11, 16, 23, 4, 11, 16, 23, 4, 11, 16, 23, 4, 11, 16, 23,
   6, 10, 15, 21, 6, 10, 15, 21, 6, 10, 15, 21, 6, 10, 15, 21]

/-- 32-bit left rotation on a `Nat` below `2 ^ 32`. -/
def rotl32 (x n : Nat) : Nat :=
  ((x <<< n) ||| (x >>> (32 - n))) % 4294967296

/-- One MD5 round: state `(A, B, C, D)` updated with round index `i`
over the 16-word message block `M`. -/
def md5Round (M : List Nat) (st : Nat × Nat × Nat × Nat) (i : Nat) :
    Nat × Nat × Nat × Nat :=
  let A := st.1
  let B := st.2.1
  let C := st.2.2.1
  let D := st.2.2.2
  let F :=
    if i < 16 then (B &&& C) ||| ((B ^^^ 0xFFFFFFFF) &&& D)
    else if i < 32 then (D &&& B) ||| ((D ^^^ 0xFFFFFFFF) &&& C)
    else if i < 48 then B ^^^ C ^^^ D
    else C ^^^ (B ||| (D ^^^ 0xFFFFFFFF))
  let g :=
    if i < 16 then i
    else if i < 32 then (5 * i + 1) % 16
    else if i < 48 then (3 * i + 5) % 16
    else (7 * i) % 16
  let t := (A + F + md5K.getD i 0 + M.getD g 0) % 4294967296
  let newB := (B + rotl32 t (md5S.getD i 0)) % 4294967296
  (D, newB, B, C)

/-- Process one 64-byte chunk: convert to 16 little-endian words, run the
64 rounds, and add the result into the running state. -/
def md5Chunk (st : Nat × Nat × Nat × Nat) (chunk : List Nat) :
    Nat × Nat × Nat × Nat :=
  let M := (List.range 16).map fun j =>
    chunk.getD (4 * j) 0 + 256 * chunk.getD (4 * j + 1) 0 +
    65536 * chunk.getD (4 * j + 2) 0 + 16777216 * chunk.getD (4 * j + 3) 0
  let r := (List.range 64).foldl (md5Round M) st
  ((st.1 + r.1) % 4294967296, (st.2.1 + r.2.1) % 4294967296,
   (st.2.2.1 + r.2.2.1) % 4294967296, (st.2.2.2 + r.2.2.2) % 4294967296)

/-- MD5 padding: append `0x80`, zero bytes up to 56 mod 64, then the
64-bit little-endian bit length. -/
def md5Pad (msg : List Nat) : List Nat :=
  let len := msg.length
  let zeros := (120 - (len + 1) % 64) % 64
  let bitLen := (8 * len) % 18446744073709551616
  msg ++ [0x80] ++ List.replicate zeros 0 ++
    (List.range 8).map fun j => (bitLen >>> (8 * j)) &&& 0xFF

/-- Lowercase hex digit for a value below 16. -/
def hexDigit (n : Nat) : Char :=
  if n < 10 then Char.ofNat (48 + n) else Char.ofNat (87 + n)

/-- Two lowercase hex digits of a byte value. -/
def byteHex (b : Nat) : List Char :=
  [hexDigit (b / 16), hexDigit (b % 16)]

/-- Little-endian lowercase hex rendering of a 32-bit word. -/
def wordHexLE (w : Nat) : List Char :=
  byteHex (w &&& 0xFF) ++ byteHex ((w >>> 8) &&& 0xFF) ++
  byteHex ((w >>> 16) &&& 0xFF) ++ byteHex ((w >>> 24) &&& 0xFF)

/-- MD5 digest of a byte list, as the usual 32-character lowercase hex
string. -/
def md5HexBytes (msg : List Nat) : String :=
  let padded := md5Pad msg
  let n := padded.length / 64
  let chunks := (List.range n).map fun i => (padded.drop (64 * i)).take 64
  let st := chunks.foldl md5Chunk (0x67452301, 0xefcdab89, 0x98badcfe, 0x10325476)
  ⟨wordHexLE st.1 ++ wordHexLE st.2.1 ++ wordHexLE st.2.2.1 ++ wordHexLE st.2.2.2⟩

/-- `hashlib.md5(s.encode()).hexdigest()`: MD5 of the UTF-8 bytes of a
string. -/
def md5Hex (s : String) : String :=
  md5HexBytes (utf8Bytes s)

/-! ## Python string primitives

The helpers of `utils/helpers.py` call a handful of `str` methods and two
`re.sub` patterns.  They are embedded character-exactly on the ASCII range.
Unicode tables are not embedded: `pyLowerChar` is the identity on non-ASCII
characters and `pyIsWordChar` treats every non-ASCII, non-whitespace
character as a word character; every concrete string any theorem below
evaluates these on is ASCII, where the embedding agrees with CPython. -/

/-- Python `str.lower` restricted to ASCII (identity elsewhere). -/
def pyLowerChar (c : Char) : Char :=
  if 'A' ≤ c && c ≤ 'Z' then Char.ofNat (c.toNat + 32) else c

/-- `str.lower` over a whole string. -/
def pyLower (s : String) : String :=
  ⟨s.data.map pyLowerChar⟩

/-- The character class of Python's regex `\s` (and of `str.strip()` /
no-argument `str.split()`): ASCII whitespace, the C1 separators, NEL,
and the Unicode space characters. -/
def pyIsSpace (c : Char) : Bool :=
  let n := c.toNat
  n == 0x20 || n == 0x09 || n == 0x0a || n == 0x0d || n == 0x0b || n == 0x0c ||
  (0x1c ≤ n && n ≤ 0x1f) || n == 0x85 || n == 0xa0 || n == 0x1680 ||
  (0x2000 ≤ n && n ≤ 0x200a) || n == 0x2028 || n == 0x2029 || n == 0x202f ||
  n == 0x205f || n == 0x3000

/-- The character class of Python's regex `\w`: ASCII alphanumerics and
underscore, exactly; non-ASCII non-whitespace characters are conservatively
included (see the section comment). -/
def pyIsWordChar (c : Char) : Bool :=
  ('a' ≤ c && c ≤ 'z') || ('A' ≤ c && c ≤ 'Z') || ('0' ≤ c && c ≤ '9') ||
  c == '_' || (0x80 ≤ c.toNat && !pyIsSpace c)

/-- Worker for `collapseWs`: the flag records whether the previous
character belonged to a whitespace run already replaced by a space. -/
def collapseWsAux : Bool → List Char → List Char
  | _, [] => []
  | inRun, c :: rest =>
    if pyIsSpace c then
      if inRun then collapseWsAux true rest
      else ' ' :: collapseWsAux true rest
    else c :: collapseWsAux false rest

/-- `re.sub(r'\s+', ' ', text)`: replace each maximal whitespace run by a
single space. -/
def collapseWs (l : List Char) : List Char :=
  collapseWsAux false l

/-- `str.strip()` with no arguments: drop leading and trailing whitespace. -/
def pyStrip (l : List Char) : List Char :=
  ((l.dropWhile pyIsSpace).reverse.dropWhile pyIsSpace).reverse

/-- Worker for `pySplitWs`: `acc` holds the characters of the token in
progress, reversed. -/
def pySplitWsAux : List Char → List Char → List (List Char)
  | acc, [] => if acc.isEmpty then [] else [acc.reverse]
  | acc, c :: rest =>
    if pyIsSpace c then
      if acc.isEmpty then pySplitWsAux [] rest
      else acc.reverse :: pySplitWsAux [] rest
    else pySplitWsAux (c :: acc) rest

/-- No-argument `str.split()`: whitespace-delimited tokens, empties
dropped. -/
def pySplitWs (s : String) : List (List Char) :=
  pySplitWsAux [] s.data

/-- `helpers.clean_text`: collapse whitespace to single spaces, delete
every character outside `\w\s.,!?;:()\-"`, and strip the ends. -/
def clean_text (text : String) : String :=
  if text = "" then ""
  else
    let step1 := collapseWs text.data
    let keep : List Char := ['.', ',', '!', '?', ';', ':', '(', ')', '-', '"']
    let step2 := step1.filter fun c => pyIsWordChar c || pyIsSpace c || keep.contains c
    ⟨pyStrip step2⟩

/-- `helpers.generate_content_hash`: the *normalized* fingerprint — MD5 of
the cleaned, lowercased content; `""` for empty content.  (The extractor
does **not** call this; see `hash_content` below.) -/
def generate_content_hash (content : String) : String :=
  if content = "" then ""
  else md5Hex (pyLower (clean_text content))

/-- `ContentProcessor._hash_content`: the fingerprint the pipeline actually
stores — MD5 of the raw content string. -/
def hash_content (content : String) : String :=
  md5Hex content

/-- `URLManager._hash_url`: MD5 of the URL string exactly as passed (no
normalization). -/
def hash_url (url : String) : String :=
  md5Hex url

/-! ## `urllib.parse` (CPython 3.11)

`helpers.normalize_url` and `WebCrawler._is_valid_crawl_url` call the
standard library's `urlparse`/`urlunparse`; their CPython 3.11 semantics
are embedded here.  Two standard-library checks depend on data that cannot
be embedded — the Unicode-NFKC re-check of non-ASCII authorities in
`_checknetloc` and `ipaddress`-based validation of bracketed hosts in
`_check_bracketed_host` — so their verdicts are taken from an explicit
environment `PyEnv`; both are reached only for URLs with a non-ASCII or a
bracketed authority, and every theorem below either quantifies over the
environment or stays on inputs that never consult it. -/

/-- Verdicts of the two non-embeddable standard-library checks: whether a
non-ASCII authority passes `_checknetloc`'s NFKC test, and whether a
bracketed host passes `_check_bracketed_host`. -/
structure PyEnv where
  nfkcPasses : String → Bool
  bracketedHostOk : String → Bool

/-- The six components of `urllib.parse.ParseResult`. -/
structure UrlParts where
  scheme : String
  netloc : String
  path : String
  params : String
  query : String
  fragment : String
  deriving Repr, DecidableEq

/-- `urllib.parse.scheme_chars`. -/
def schemeChars : List Char :=
  "abcdefghijklmnopqrstuvwxyzABCDEFGHIJKLMNOPQRSTUVWXYZ0123456789+-.".data

/-- `urllib.parse.uses_params`. -/
def usesParams : List String :=
  ["", "ftp", "hdl", "prospero", "http", "imap", "https", "shttp", "rtsp",
   "rtsps", "rtspu", "sip", "sips", "mms", "sftp", "tel"]

/-- `urllib.parse.uses_netloc`. -/
def usesNetloc : List String :=
  ["", "ftp", "http", "gopher", "nntp", "telnet", "imap", "wais", "file",
   "mms", "https", "shttp", "snews", "prospero", "rtsp", "rtsps", "rtspu",
   "rsync", "svn", "svn+ssh", "sftp", "nfs", "git", "git+ssh", "ws", "wss"]

/-- Removal of `\t`, `\r`, `\n` anywhere in the URL
(`_UNSAFE_URL_BYTES_TO_REMOVE`). -/
def removeTabCrLf (l : List Char) : List Char :=
  l.filter fun c => !(c == '\t' || c == '\r' || c == '\n')

/-- `s.split(sep, 1)`: the part before the first occurrence of `sep` and
the part after it (`(l, [])` when `sep` is absent). -/
def breakAtChar (sep : Char) (l : List Char) : List Char × List Char :=
  (l.takeWhile (· != sep), (l.dropWhile (· != sep)).drop 1)

/-- ASCII letter test (`url[0].isascii() and url[0].isalpha()`). -/
def isAsciiAlpha (c : Char) : Bool :=
  ('a' ≤ c && c ≤ 'z') || ('A' ≤ c && c ≤ 'Z')

/-- `str.find(c, start)` as an `Option`al index. -/
def pyFindFrom (c : Char) (l : List Char) (start : Nat) : Option Nat :=
  match (l.drop start).findIdx? (· == c) with
  | some j => some (start + j)
  | none => none

/-- `str.rfind(c)` as an `Option`al index. -/
def pyRfind (c : Char) (l : List Char) : Option Nat :=
  match l.reverse.findIdx? (· == c) with
  | some j => some (l.length - 1 - j)
  | none => none

/-- `urllib.parse.urlsplit` (Python 3.11): lstrip C0 controls and space,
remove tab/CR/LF, then extract scheme, authority (with the IPv6-bracket
and NFKC authority checks, which raise `ValueError`), fragment and
query. -/
def urlsplit (env : PyEnv) (url : String) : Except String UrlParts :=
  let l1 := removeTabCrLf (url.data.dropWhile fun c => c.toNat ≤ 0x20)
  let schemeRest : List Char × List Char :=
    match l1.findIdx? (· == ':') with
    | some i =>
      if 0 < i && isAsciiAlpha (l1.headD ' ') && (l1.take i).all (schemeChars.contains ·)
      then ((l1.take i).map pyLowerChar, l1.drop (i + 1))
      else ([], l1)
    | none => ([], l1)
  let scheme := schemeRest.1
  let rest := schemeRest.2
  let hasNetloc := rest.take 2 == ['/', '/']
  let netloc :=
    if hasNetloc
    then (rest.drop 2).takeWhile fun c => !(c == '/' || c == '?' || c == '#')
    else []
  let rest2 := if hasNetloc then (rest.drop 2).drop netloc.length else rest
  if (netloc.contains '[' && !netloc.contains ']') ||
     (netloc.contains ']' && !netloc.contains '[') then
    Except.error "Invalid IPv6 URL"
  else if netloc.contains '[' && netloc.contains ']' &&
      !env.bracketedHostOk ⟨((netloc.dropWhile (· != '[')).drop 1).takeWhile (· != ']')⟩ then
    Except.error "invalid bracketed host"
  else
    let restFrag := if rest2.contains '#' then breakAtChar '#' rest2 else (rest2, [])
    let pathQuery :=
      if restFrag.1.contains '?' then breakAtChar '?' restFrag.1 else (restFrag.1, [])
    if !netloc.isEmpty && !netloc.all (·.toNat < 128) && !env.nfkcPasses ⟨netloc⟩ then
      Except.error "netloc contains invalid characters under NFKC normalization"
    else
      Except.ok ⟨⟨scheme⟩, ⟨netloc⟩, ⟨pathQuery.1⟩, "", ⟨pathQuery.2⟩, ⟨restFrag.2⟩⟩

/-- `urllib.parse._splitparams`: split path parameters at the first `;`
at or after the last `/` (the `i = -1` slice arithmetic of the `else`
branch is mirrored literally; the caller's guard makes it unreachable). -/
def splitparams (l : List Char) : List Char × List Char :=
  if l.contains '/' then
    match pyFindFrom ';' l ((pyRfind '/' l).getD 0) with
    | some i => (l.take i, l.drop (i + 1))
    | none => (l, [])
  else
    match l.findIdx? (· == ';') with
    | some i => (l.take i, l.drop (i + 1))
    | none => (l.dropLast, l)

/-- `urllib.parse.urlparse`: `urlsplit` plus path-parameter splitting for
schemes in `uses_params`. -/
def urlparse (env : PyEnv) (url : String) : Except String UrlParts := do
  let p ← urlsplit env url
  if usesParams.contains p.scheme && p.path.data.contains ';' then
    let pp := splitparams p.path.data
    return { p with path := ⟨pp.1⟩, params := ⟨pp.2⟩ }
  else
    return p

/-- `s.startswith(pre)` (by character list, so that kernel reduction can
evaluate it; `String.startsWith` is defined by well-founded recursion). -/
def strStartsWith (s pre : String) : Bool :=
  pre.data.isPrefixOf s.data

/-- `urllib.parse.urlunsplit` (Python 3.11). -/
def urlunsplit (scheme netloc path query fragment : String) : String :=
  let url := path
  let url :=
    if netloc != "" ||
       (scheme != "" && usesNetloc.contains scheme && !(strStartsWith url "//")) then
      let url2 := if url != "" && !(strStartsWith url "/") then "/" ++ url else url
      "//" ++ netloc ++ url2
    else url
  let url := if scheme != "" then scheme ++ ":" ++ url else url
  let url := if query != "" then url ++ "?" ++ query else url
  if fragment != "" then url ++ "#" ++ fragment else url

/-- `urllib.parse.urlunparse`: rejoin path parameters, then `urlunsplit`. -/
def urlunparse (p : UrlParts) : String :=
  let u := if p.params != "" then p.path ++ ";" ++ p.params else p.path
  urlunsplit p.scheme p.netloc u p.query p.fragment

/-- The tracking-parameter keys dropped by `helpers.normalize_url`. -/
def trackingKeys : List String :=
  ["utm_source", "utm_medium", "utm_campaign", "utm_term", "utm_content",
   "ref", "source"]

/-- `str.split(sep)` with a one-character separator: all pieces, empties
included (`"".split(sep) == ['']`). -/
def splitOnChar (sep : Char) : List Char → List (List Char)
  | [] => [[]]
  | c :: rest =>
    let r := splitOnChar sep rest
    if c == sep then [] :: r
    else (c :: r.headD []) :: r.tail

/-- `str.rstrip('/')`. -/
def rstripSlash (l : List Char) : List Char :=
  (l.reverse.dropWhile (· == '/')).reverse

/-- `helpers.normalize_url`: parse, drop the fragment, drop query
parameters without `=` or with a tracking key, re-serialize, and strip
trailing slashes; any `urlparse` exception returns the input unchanged. -/
def normalize_url (env : PyEnv) (url : String) : String :=
  match urlparse env url with
  | .error _ => url
  | .ok p =>
    let queryParams :=
      if p.query != "" then
        (splitOnChar '&' p.query.data).filter fun param =>
          param.contains '=' &&
          !(trackingKeys.contains ⟨(param.takeWhile (· != '=')).map pyLowerChar⟩)
      else []
    let q : String :=
      if queryParams.isEmpty then "" else ⟨List.intercalate ['&'] queryParams⟩
    ⟨rstripSlash (urlunparse { p with fragment := "", query := q }).data⟩

/-! ## Frontier (`crawler/url_manager.py`)

`URLManager` keeps a Redis sorted set `crawl_queue` (member → score, members
unique), a Redis set `crawled_urls` of URL hashes, an in-process hot-cache
set `self.crawled_urls`, and per-URL metadata hashes.  Sets are embedded as
duplicate-free lists in insertion order; the sorted set as an association
list.  Redis `ZPOPMAX` pops the entry with the highest score, ties broken
towards the lexicographically greatest member; Lean's `String` order
coincides with Redis's byte order on the ASCII URLs used here.  Every
theorem below assumes the Redis calls succeed (the claims' own premise).
The `url_data:` metadata hash stores url/domain/added-timestamp; only the
URL is carried (the other two fields never influence any operation). -/

/-- Redis `ZADD` with default flags: update the score if the member is
present, else append the member. -/
def zadd (q : List (String × Int)) (u : String) (p : Int) : List (String × Int) :=
  if q.any (·.1 == u) then q.map fun e => if e.1 == u then (e.1, p) else e
  else q ++ [(u, p)]

/-- Sorted-set ordering: `a` after `b` (popped first by `ZPOPMAX`) when its
score is greater, or equal with a lexicographically greater member. -/
def zgt (a b : String × Int) : Bool :=
  b.2 < a.2 || (a.2 == b.2 && decide (b.1 < a.1))

/-- The maximal entry of a sorted set with respect to `zgt`. -/
def zmax (e : String × Int) (rest : List (String × Int)) : String × Int :=
  rest.foldl (fun acc x => if zgt x acc then x else acc) e

/-- Redis `ZPOPMAX`: remove and return the maximal entry. -/
def zpopmax (q : List (String × Int)) : Option (String × Int) × List (String × Int) :=
  match q with
  | [] => (none, [])
  | e :: rest =>
    let m := zmax e rest
    (some m, (e :: rest).erase m)

/-- Redis `SADD` / Python `set.add` on a duplicate-free list. -/
def sadd (s : List String) (h : String) : List String :=
  if s.contains h then s else s ++ [h]

/-- Redis `HSET`-backed metadata map update. -/
def hset (m : List (String × String)) (k v : String) : List (String × String) :=
  if m.any (·.1 == k) then m.map fun e => if e.1 == k then (e.1, v) else e
  else m ++ [(k, v)]

/-- The persistent and in-process state of `URLManager`. -/
structure Frontier where
  queue : List (String × Int)
  crawledUrls : List String
  cache : List String
  urlData : List (String × String)
  deriving Repr

/-- `URLManager.is_crawled`: hot cache first, then the Redis set; a Redis
hit promotes the hash into the cache. -/
def is_crawled (f : Frontier) (url : String) : Bool × Frontier :=
  let h := hash_url url
  if f.cache.contains h then (true, f)
  else if f.crawledUrls.contains h then (true, { f with cache := f.cache ++ [h] })
  else (false, f)

/-- `URLManager.add_url`: no-op when `is_crawled`; otherwise `ZADD` the URL
(overwriting any existing score) and record its metadata. -/
def add_url (f : Frontier) (url : String) (priority : Int) : Frontier :=
  let cf := is_crawled f url
  if cf.1 then cf.2
  else
    { cf.2 with
      queue := zadd cf.2.queue url priority,
      urlData := hset cf.2.urlData (hash_url url) url }

/-- `URLManager.get_next_url`: `ZPOPMAX` on `crawl_queue`. -/
def get_next_url (f : Frontier) : Option String × Frontier :=
  match zpopmax f.queue with
  | (some e, q2) => (some e.1, { f with queue := q2 })
  | (none, _) => (none, f)

/-- `URLManager.mark_crawled`: `SADD` the hash to the Redis set and to the
hot cache.  (The queue is *not* touched.) -/
def mark_crawled (f : Frontier) (url : String) : Frontier :=
  let h := hash_url url
  { f with crawledUrls := sadd f.crawledUrls h, cache := sadd f.cache h }

/-- The frontier's three operations, for reasoning about arbitrary call
sequences. -/
inductive FrontierOp where
  | add (url : String) (priority : Int)
  | next
  | mark (url : String)

/-- State after one frontier operation. -/
def applyOp (f : Frontier) : FrontierOp → Frontier
  | .add u p => add_url f u p
  | .next => (get_next_url f).2
  | .mark u => mark_crawled f u

/-- State after a sequence of frontier operations. -/
def runOps (f : Frontier) : List FrontierOp → Frontier
  | [] => f
  | op :: rest => runOps (applyOp f op) rest

/-- The URLs returned by the `next` calls of an operation sequence, in
order. -/
def nextOutputs (f : Frontier) : List FrontierOp → List String
  | [] => []
  | op :: rest =>
    match op with
    | .next =>
      match get_next_url f with
      | (some u, f2) => u :: nextOutputs f2 rest
      | (none, f2) => nextOutputs f2 rest
    | _ => nextOutputs (applyOp f op) rest

/-- The queued score of a URL (`ZSCORE`). -/
def zscore (q : List (String × Int)) (u : String) : Option Int :=
  (q.find? (·.1 == u)).map (·.2)

/-! ## Content store (`utils/database.py`)

Rows of the `content` table carry exactly the twelve columns
`DatabaseManager.save_content` inserts; `tags` is serialized with
`json.dumps` (injective on lists of strings), so rows are embedded with
the tag list itself and the SQL comparison `tags != '[]'` becomes a
comparison with the empty list.  `save_content`'s `except` clause catches
any insert-time failure — a disk error, a `content_hash` race, or the
`url` UNIQUE constraint — and the connection context rolls the transaction
back, so a failure returns `false` with the store unchanged; the failure
oracle is the explicit `ioFails` argument.  (Lazy `init_db`, which runs
before the `try` block, is assumed to have succeeded.) -/

/-- A document as built by `ContentProcessor.extract_content` and stored
by `DatabaseManager.save_content`. -/
structure ContentData where
  url : String
  title : Option String
  description : Option String
  content : String
  author : Option String
  publish_date : Option String
  tags : List String
  word_count : Nat
  reading_time : Nat
  readability_score : Float
  extracted_at : String
  content_hash : String

/-- `DatabaseManager.save_content`: `false` and no change when a row with
the same `content_hash` exists; otherwise insert, where a disk failure or
a UNIQUE-constraint violation (duplicate `url`, or a `content_hash` race
represented by `ioFails`) is caught and yields `false` with the store
rolled back. -/
def save_content (store : List ContentData) (d : ContentData) (ioFails : Bool) :
    Bool × List ContentData :=
  if store.any (·.content_hash == d.content_hash) then (false, store)
  else if ioFails || store.any (·.url == d.url) then (false, store)
  else (true, store ++ [d])

/-- The tag lists of the rows the `get_stats` tag query selects
(`WHERE tags != '[]' AND tags IS NOT NULL`), in table order. -/
def taggedRows (store : List ContentData) : List (List String) :=
  (store.map (·.tags)).filter (· != [])

/-- `GROUP BY tags` with `COUNT(*)`: groups keyed by the exact serialized
tag list, counts accumulated in first-occurrence order. -/
def groupCounts (store : List ContentData) : List (List String × Nat) :=
  (taggedRows store).foldl
    (fun acc l =>
      if acc.any (·.1 == l) then acc.map fun e => if e.1 == l then (e.1, e.2 + 1) else e
      else acc ++ [(l, 1)])
    []

/-- Stable insertion into a count-descending list (ties keep earlier
entries first).  SQLite's `ORDER BY count DESC` leaves tie order
unspecified; this embedding fixes it deterministically, and the concrete
inputs of the theorems below have pairwise distinct counts. -/
def insertByCount {α : Type} (e : α × Nat) : List (α × Nat) → List (α × Nat)
  | [] => [e]
  | x :: xs => if x.2 < e.2 then e :: x :: xs else x :: insertByCount e xs

/-- Sort pairs by count, descending, stably. -/
def sortByCountDesc {α : Type} (l : List (α × Nat)) : List (α × Nat) :=
  l.foldr insertByCount []

/-- The `top_tags` component of `DatabaseManager.get_stats`: the 10 most
frequent *exact tag-list strings*, each exploded into its parsed tags
paired with that group's row count, truncated to 10 entries.  (The
`total_content` and `content_today` components of `get_stats` are plain
`COUNT(*)` queries no claim touches and are not modeled.) -/
def get_stats_top_tags (store : List ContentData) : List (String × Nat) :=
  let top := (sortByCountDesc (groupCounts store)).take 10
  ((top.map fun g => g.1.map fun t => (t, g.2)).flatten).take 10

/-! ## Content extractor (`crawler/content_processor.py`)

`ContentProcessor` works on a BeautifulSoup DOM.  The DOM (after
`_clean_html`, whose effect is internal to BeautifulSoup) is embedded as
an oracle structure `Soup` answering exactly the queries the extractor
makes; an element is its stripped text plus its attribute map.  A
BeautifulSoup tag with no contents is falsy, and every element use in
this module is guarded by a truthiness test right after the lookup, so
absent-or-falsy lookups are uniformly folded into `none`.  The `dateutil`
parser behind `_parse_date` and the `textstat` Flesch score are external
libraries, taken as oracle functions. -/

/-- A DOM element: `get_text(strip=True)` and `.get(attr)`. -/
structure Elem where
  text : String
  attr : String → Option String

/-- The DOM queries `ContentProcessor` makes. -/
structure Soup where
  selectOne : String → Option Elem
  selectAll : String → List Elem
  titleTag : Option Elem
  metaDescription : Option Elem
  metaOgDescription : Option Elem
  paragraphs : List Elem
  bodyElem : Option Elem

/-- `ContentProcessor.content_selectors`. -/
def content_selectors : List String :=
  ["article", "[role=\"main\"]", ".content", "#content",
   ".post-content", ".entry-content", ".article-body"]

/-- `ContentProcessor.title_selectors`. -/
def title_selectors : List String :=
  ["h1", ".title", ".post-title", ".article-title",
   ".entry-title", "[property=\"og:title\"]"]

/-- The author selectors of `ContentProcessor._extract_author`. -/
def author_selectors : List String :=
  ["[rel=\"author\"]", ".author", ".byline", "[property=\"article:author\"]", ".post-author"]

/-- The date selectors of `ContentProcessor._extract_publish_date`. -/
def date_selectors : List String :=
  ["[property=\"article:published_time\"]", "[datetime]", ".date", ".publish-date", "time"]

/-- The tag selectors of `ContentProcessor._extract_tags`. -/
def tag_selectors : List String :=
  [".tags a", ".categories a", ".tag", "[property=\"article:tag\"]"]

/-- Strategy 1 of `_extract_main_content`: the first selector whose
element exists and whose stripped text exceeds 200 characters (an element
with shorter text falls through to the next selector). -/
def firstSelectorContent (soup : Soup) : List String → Option String
  | [] => none
  | sel :: rest =>
    match soup.selectOne sel with
    | some e => if 200 < e.text.length then some e.text else firstSelectorContent soup rest
    | none => firstSelectorContent soup rest

/-- `ContentProcessor._extract_main_content`: selector candidates, then
the concatenation of `<p>` texts longer than 50 characters (returned with
**no** length threshold), then the body text when longer than 200. -/
def extract_main_content (soup : Soup) : Option String :=
  match firstSelectorContent soup content_selectors with
  | some c => some c
  | none =>
    let blocks := (soup.paragraphs.map (·.text)).filter fun t => 50 < t.length
    if !soup.paragraphs.isEmpty && !blocks.isEmpty then
      some (String.intercalate " " blocks)
    else
      match soup.bodyElem with
      | some b => if 200 < b.text.length then some b.text else none
      | none => none

/-- First selector with a non-empty stripped text (shared shape of
`_extract_title` and `_extract_author`). -/
def firstSelectorNonEmptyText (soup : Soup) : List String → Option String
  | [] => none
  | sel :: rest =>
    match soup.selectOne sel with
    | some e => if e.text != "" then some e.text else firstSelectorNonEmptyText soup rest
    | none => firstSelectorNonEmptyText soup rest

/-- `ContentProcessor._extract_title`: title selectors, then the
`<title>` tag's text unconditionally. -/
def extract_title (soup : Soup) : Option String :=
  match firstSelectorNonEmptyText soup title_selectors with
  | some t => some t
  | none => soup.titleTag.map (·.text)

/-- An attribute made `none` when absent or empty (Python truthiness of
`elem.get(name)`). -/
def truthyAttr (e : Elem) (name : String) : Option String :=
  match e.attr name with
  | some v => if v != "" then some v else none
  | none => none

/-- A `<meta>` tag's stripped `content` attribute, when the tag exists
and the attribute is truthy. -/
def metaContent (m : Option Elem) : Option String :=
  match m with
  | some e => (truthyAttr e "content").map fun v => (⟨pyStrip v.data⟩ : String)
  | none => none

/-- `ContentProcessor._extract_description`: `meta name=description`
content, else `meta property=og:description` content. -/
def extract_description (soup : Soup) : Option String :=
  match metaContent soup.metaDescription with
  | some v => some v
  | none => metaContent soup.metaOgDescription

/-- `ContentProcessor._extract_author`. -/
def extract_author (soup : Soup) : Option String :=
  firstSelectorNonEmptyText soup author_selectors

/-- `ContentProcessor._extract_publish_date` with `_parse_date`'s
`dateutil` call as the oracle `parseDate`: per selector, prefer the
`datetime` attribute, then `content`, then the element text; the first
non-empty candidate is handed to the parser and its result — even
`none` — is returned. -/
def extract_publish_date (parseDate : String → Option String) (soup : Soup) :
    List String → Option String
  | [] => none
  | sel :: rest =>
    match soup.selectOne sel with
    | some e =>
      let ds :=
        match truthyAttr e "datetime" with
        | some v => some v
        | none =>
          match truthyAttr e "content" with
          | some v => some v
          | none => if e.text != "" then some e.text else none
      match ds with
      | some v => parseDate v
      | none => extract_publish_date parseDate soup rest
    | none => extract_publish_date parseDate soup rest

/-- `ContentProcessor._extract_tags`: texts of all tag-selector matches in
order, non-empty and deduplicated keeping first occurrences, truncated
to 10. -/
def extract_tags (soup : Soup) : List String :=
  let all := (tag_selectors.map fun sel => (soup.selectAll sel).map (·.text)).flatten
  (all.foldl (fun acc t => if t != "" && !acc.contains t then acc ++ [t] else acc) []).take 10

/-- `ContentProcessor.extract_content`: main content (`none`, and hence no
document, when no strategy yields — `if not content` also catches an empty
string), metadata fields, word/reading statistics, the Flesch score
(oracle `flesch`), `datetime.utcnow().isoformat()` (oracle `now`), and the
fingerprint `_hash_content(content)` — MD5 of the **raw** content. -/
def extract_content (parseDate : String → Option String) (flesch : String → Float)
    (now : String) (url : String) (soup : Soup) : Option ContentData :=
  match extract_main_content soup with
  | none => none
  | some content =>
    if content == "" then none
    else
      let wc := (pySplitWs content).length
      some
        { url := url
          title := extract_title soup
          description := extract_description soup
          content := content
          author := extract_author soup
          publish_date := extract_publish_date parseDate soup date_selectors
          tags := extract_tags soup
          word_count := wc
          reading_time := max 1 (wc / 200)
          readability_score := flesch content
          extracted_at := now
          content_hash := hash_content content }

/-! ## Crawl loop (`crawler/core_crawler.py` and `config.py`) -/

/-- `CrawlerConfig.USEFUL_URL_PATTERNS` (literal regexes). -/
def USEFUL_URL_PATTERNS : List String :=
  ["/article/", "/blog/", "/news/", "/post/", "/story/", "/content/", "/page/"]

/-- `CrawlerConfig.EXCLUDED_EXTENSIONS`. -/
def EXCLUDED_EXTENSIONS : List String :=
  [".pdf", ".jpg", ".jpeg", ".png", ".gif", ".mp4", ".avi", ".zip", ".exe",
   ".css", ".js"]

/-- `CrawlerConfig.MIN_CONTENT_LENGTH`. -/
def MIN_CONTENT_LENGTH : Nat := 100

/-- Substring containment on character lists. -/
def containsSub (hay needle : List Char) : Bool :=
  (List.range (hay.length + 1)).any fun i => needle.isPrefixOf (hay.drop i)

/-- `re.search(pat, url, re.IGNORECASE)` for the configured patterns,
which are all literal: case-insensitive substring test. -/
def searchCI (pat url : String) : Bool :=
  containsSub (url.data.map pyLowerChar) (pat.data.map pyLowerChar)

/-- `str.endswith`. -/
def pyEndsWith (s suf : String) : Bool :=
  suf.data.isSuffixOf s.data

/-- `WebCrawler._is_valid_crawl_url`.  `helpers.is_valid_url` — a regex
match plus scheme/netloc checks — is abstracted as the parameter
`isValid`; the theorems below hold for every choice of that predicate.
A `ValueError` escaping `urlparse` propagates to the caller. -/
def is_valid_crawl_url (env : PyEnv) (isValid : String → Bool) (url : String) :
    Except String Bool :=
  if !isValid url then Except.ok false
  else do
    let p ← urlparse env url
    if EXCLUDED_EXTENSIONS.any (fun ext => pyEndsWith (pyLower p.path) ext) then
      return false
    else if USEFUL_URL_PATTERNS.any (fun pat => searchCI pat url) then
      return true
    else
      return false

/-- `WebCrawler._extract_urls`, over the already-resolved candidate link
URLs (`urljoin(base_url, href)` for each `<a href=...>` of the page, an
operation of the DOM/stdlib layer): keep the URLs the filter accepts, in
order, normalized; an exception from the filter aborts the whole listing
(it is caught per page in `_crawl_page`). -/
def extract_urls (env : PyEnv) (isValid : String → Bool) :
    List String → Except String (List String)
  | [] => Except.ok []
  | u :: rest => do
    let ok ← is_valid_crawl_url env isValid u
    let tail ← extract_urls env isValid rest
    if ok then return (normalize_url env u :: tail) else return tail

/-- The crawler state `_crawl_page` can change: the frontier and the
content store.  (`FeedGenerator.add_content` is `pass` in the source.) -/
structure CrawlerState where
  frontier : Frontier
  store : List ContentData

/-- One `WebCrawler._crawl_page` call.  The environment supplies what the
network and the DOM layer produced for this URL: `fetched` is
`_fetch_page`'s result — `none` on a timeout, a non-200 status, a
transport error, or a non-`text/html` content type — `extracted` the
extractor's result on the page's soup, `links` the resolved outbound link
candidates, and `ioFails` the store's failure oracle.  The control flow
mirrors the source: an already-crawled URL returns at once; a failed
fetch returns **without** `mark_crawled`; otherwise useful content is
saved, surviving links are enqueued at priority 1, and the URL is marked
crawled last; any exception in between (here: a link-filter error) is
caught by the per-URL `try`/`except`, which also skips `mark_crawled`. -/
def crawl_page (env : PyEnv) (isValid : String → Bool) (s : CrawlerState)
    (url : String) (fetched : Option String) (extracted : Option ContentData)
    (links : List String) (ioFails : Bool) : CrawlerState :=
  let cf := is_crawled s.frontier url
  if cf.1 then { s with frontier := cf.2 }
  else
    let s1 : CrawlerState := { s with frontier := cf.2 }
    match fetched with
    | none => s1
    | some html =>
      if html == "" then s1  -- `if not html_content` is also true of an empty body
      else
      let s2 : CrawlerState :=
        match extracted with
        | some cd =>
          if cd.content != "" && MIN_CONTENT_LENGTH ≤ cd.content.length then
            { s1 with store := (save_content s1.store cd ioFails).2 }
          else s1
        | none => s1
      match extract_urls env isValid links with
      | .error _ => s2
      | .ok newUrls =>
        let fr := newUrls.foldl (fun f u => add_url f u 1) s2.frontier
        { s2 with frontier := mark_crawled fr url }

/-! ## Specification-side definitions

Definitions in this section follow the *specification's* wording, for the
refinement comparisons below; they are not translations of source code. -/

/-- Distinct elements of a list in first-occurrence order. -/
def firstOccurrences {α : Type} [BEq α] (rows : List α) : List α :=
  rows.foldl (fun acc l => if acc.contains l then acc else acc ++ [l]) []

/-- The amended description of `get_stats`'s tag aggregation: group the
selected rows by their exact tag list, count the rows of each group, order
groups by count (descending, first-occurrence tie order), take 10 groups,
list each group's tags paired with the group's row count, truncate to 10
entries. -/
def top_tags_amended (store : List ContentData) : List (String × Nat) :=
  let rows := (store.map (·.tags)).filter (· != [])
  let groups := (firstOccurrences rows).map fun l => (l, rows.count l)
  let top := (sortByCountDesc groups).take 10
  ((top.map fun g => g.1.map fun t => (t, g.2)).flatten).take 10

/-- The tag aggregation as claim C9 states it: parse every row's tag
array, sum occurrences per individual tag across all rows, and return the
10 tags with the highest totals (descending). -/
def top_tags_claimed (store : List ContentData) : List (String × Nat) :=
  let occurrences := (store.map (·.tags)).flatten
  let counts := (firstOccurrences occurrences).map fun t => (t, occurrences.count t)
  (sortByCountDesc counts).take 10

/-- Body selection as amended for claim C7: CSS selector candidates
(first with text over 200 characters), then the join of `<p>` texts longer
than 50 characters — returned *whenever at least one qualifies, with no
200-character requirement* — then the body text when over 200
characters. -/
def extract_main_content_amended (soup : Soup) : Option String :=
  match (content_selectors.filterMap fun sel => (soup.selectOne sel).map (·.text)).find?
      (fun t => 200 < t.length) with
  | some t => some t
  | none =>
    if ((soup.paragraphs.map (·.text)).filter fun t => 50 < t.length).isEmpty then
      match soup.bodyElem with
      | some b => if 200 < b.text.length then some b.text else none
      | none => none
    else
      some (String.intercalate " "
        ((soup.paragraphs.map (·.text)).filter fun t => 50 < t.length))

/-! ## Concrete fixtures

Closed inputs used by the witness and counterexample theorems. -/

/-- An environment whose two oracle checks accept.  Every concrete URL
below has an ASCII, bracket-free authority, so neither oracle is ever
consulted on these inputs. -/
def env0 : PyEnv := ⟨fun _ => true, fun _ => true⟩

/-- A document fixture with the given URL, fingerprint and tags. -/
def sampleDoc (u h : String) (tags : List String) : ContentData :=
  ⟨u, none, none, "body text", none, none, tags, 2, 1, 0.0, "2026-02-03T04:05:06", h⟩

/-- Store fixture for the tag-statistics counterexample: one row tagged
`a, b` and two rows tagged `a`. -/
def c9store : List ContentData :=
  [sampleDoc "http://h/1" "h1" ["a", "b"],
   sampleDoc "http://h/2" "h2" ["a"],
   sampleDoc "http://h/3" "h3" ["a"]]

/-- A paragraph text of 62 characters containing upper-case letters. -/
def c3text : String :=
  "Quantum Computing Advances Were Announced Today By Researchers"

/-- A soup whose only content is a single long paragraph. -/
def c3soup : Soup :=
  ⟨fun _ => none, fun _ => [], none, none, none, [⟨c3text, fun _ => none⟩], none⟩

/-- The document `extract_content` produces from `c3soup`. -/
def c3doc : ContentData :=
  ⟨"http://h/blog/q", none, none, c3text, none, none, [],
   (pySplitWs c3text).length, max 1 ((pySplitWs c3text).length / 200), 0.0,
   "2026-02-03T04:05:06", hash_content c3text⟩

/-- A paragraph text of 54 characters (over 50, under 200). -/
def c7text : String :=
  "A paragraph longer than fifty characters but shorter."

/-- A soup with no selector matches, no body, and one 54-character
paragraph. -/
def c7soup : Soup :=
  ⟨fun _ => none, fun _ => [], none, none, none, [⟨c7text, fun _ => none⟩], none⟩

/-- An empty crawler state. -/
def emptyState : CrawlerState :=
  ⟨⟨[], [], [], []⟩, []⟩

/-! ## Theorems -/

set_option maxRecDepth 100000

/-- A `false` verdict from `is_crawled` leaves the frontier untouched. -/
theorem is_crawled_false_eq {f : Frontier} {u : String}
    (h : (is_crawled f u).1 = false) : is_crawled f u = (false, f) := by
  by_cases h1 : hash_url u ∈ f.cache
  · simp [is_crawled, h1] at h
  · by_cases h2 : hash_url u ∈ f.crawledUrls
    · simp [is_crawled, h1, h2] at h
    · simp [is_crawled, h1, h2]

/-- C1 (amended): when the fetch of a not-yet-crawled URL fails,
`_crawl_page` returns without changing any state at all — in particular
the URL's hash is *not* added to the crawled set, so the URL can be
re-enqueued and re-fetched later. -/
theorem crawl_page_fetch_failure_no_mark (env : PyEnv) (isValid : String → Bool)
    (s : CrawlerState) (url : String) (extracted : Option ContentData)
    (links : List String) (ioFails : Bool)
    (h : (is_crawled s.frontier url).1 = false) :
    crawl_page env isValid s url none extracted links ioFails = s ∧
    ((crawl_page env isValid s url none extracted links ioFails).frontier.crawledUrls.contains
        (hash_url url)) = false := by
  have he := is_crawled_false_eq h
  have h1 : crawl_page env isValid s url none extracted links ioFails = s := by
    simp [crawl_page, he]
  refine ⟨h1, ?_⟩
  rw [h1]
  by_cases h2 : hash_url url ∈ s.frontier.crawledUrls
  · by_cases h3 : hash_url url ∈ s.frontier.cache
    · simp [is_crawled, h3] at h
    · simp [is_crawled, h3, h2] at h
  · simpa using h2

/-- Witness for C1's theorem at a concrete state. -/
theorem crawl_page_fetch_failure_no_mark_witness :
    crawl_page env0 (fun _ => true) emptyState "http://a" none none [] false = emptyState :=
  (crawl_page_fetch_failure_no_mark env0 (fun _ => true) emptyState "http://a" none [] false
    (by rfl)).1

/-- C1 counterexample: after a failed fetch of `http://a` from the empty
state, the URL's hash is *not* in the crawled set, contradicting the
claim that a failed fetch still marks the URL visited. -/
theorem crawl_page_fetch_failure_counterexample :
    ((crawl_page env0 (fun _ => true) emptyState "http://a" none none [] false).frontier.crawledUrls.contains
        (hash_url "http://a")) = false := by
  rfl

/-- C6 counterexample: `normalize_url` is not idempotent — on
`http://h/a;/` the trailing-slash strip exposes a trailing `;`, which the
second parse treats as an empty path-parameter separator and drops. -/
theorem normalize_url_not_idempotent_counterexample :
    normalize_url env0 (normalize_url env0 "http://h/a;/") ≠
      normalize_url env0 "http://h/a;/" := by
  decide

/-- C6 (amended): the frontier's URL hash is the MD5 of the *raw* URL
string as passed, and therefore differs from the hash of the normalized
form on a URL that normalization changes (here `http://example.com/#x`,
whose normal form is `http://example.com`). -/
theorem url_hash_is_raw_md5 :
    (∀ u : String, hash_url u = md5Hex u) ∧
    hash_url "http://example.com/#x" ≠
      hash_url (normalize_url env0 "http://example.com/#x") :=
  ⟨fun _ => rfl, by decide⟩

/-- C4: `save_content` returns `false` and leaves the store unchanged
when a row with the document's `content_hash` exists; any failing pass
(disk failure, `content_hash` race, `url` constraint) also returns
`false` with the store unchanged instead of raising; otherwise it inserts
the document and returns `true`. -/
theorem save_content_idempotent_insert (store : List ContentData) (d : ContentData)
    (ioFails : Bool) :
    (store.any (fun r => r.content_hash == d.content_hash) = true →
       save_content store d ioFails = (false, store)) ∧
    ((save_content store d ioFails).1 = false →
       (save_content store d ioFails).2 = store) ∧
    (store.any (fun r => r.content_hash == d.content_hash) = false → ioFails = false →
       store.any (fun r => r.url == d.url) = false →
       save_content store d ioFails = (true, store ++ [d])) := by
  refine ⟨fun h1 => ?_, fun h1 => ?_, fun h1 h2 h3 => ?_⟩
  · unfold save_content
    rw [h1]
    simp
  · by_cases hA : store.any (fun r => r.content_hash == d.content_hash) = true
    · unfold save_content
      rw [hA]
      simp
    · rw [Bool.not_eq_true] at hA
      by_cases hB : (ioFails || store.any (fun r => r.url == d.url)) = true
      · unfold save_content
        rw [hA, hB]
        simp
      · rw [Bool.not_eq_true] at hB
        exfalso
        unfold save_content at h1
        rw [hA, hB] at h1
        simp at h1
  · unfold save_content
    rw [h1, h2, h3]
    simp

/-- Witness for C4's theorem: a fresh insert into the empty store. -/
theorem save_content_idempotent_insert_witness :
    save_content [] (sampleDoc "http://h/1" "h1" ["a"]) false =
      (true, [sampleDoc "http://h/1" "h1" ["a"]]) :=
  (save_content_idempotent_insert [] (sampleDoc "http://h/1" "h1" ["a"]) false).2.2
    rfl rfl rfl

/-- C3 (amended): every document the extractor produces carries
`content_hash = MD5(raw content)` — the fingerprint is computed from the
raw body string, not from the normalized content. -/
theorem extract_content_hash_is_raw_md5 (parseDate : String → Option String)
    (flesch : String → Float) (now url : String) (soup : Soup) (cd : ContentData)
    (h : extract_content parseDate flesch now url soup = some cd) :
    cd.content_hash = md5Hex cd.content := by
  unfold extract_content at h
  cases hm : extract_main_content soup with
  | none => rw [hm] at h; exact absurd h (by simp)
  | some c =>
    rw [hm] at h
    by_cases hc : (c == "") = true
    · simp [hc] at h
    · simp only [hc, Bool.false_eq_true, if_false, Option.some.injEq] at h
      subst h
      rfl

/-- Witness for C3's theorem: the single-paragraph fixture. -/
theorem extract_content_hash_is_raw_md5_witness :
    c3doc.content_hash = md5Hex c3doc.content :=
  extract_content_hash_is_raw_md5 (fun _ => none) (fun _ => 0.0)
    "2026-02-03T04:05:06" "http://h/blog/q" c3soup c3doc (by rfl)

/-- C3 counterexample: on the fixture document the stored fingerprint
differs from the MD5 of the normalized (whitespace-collapsed, lowercased,
character-stripped) content that the claim prescribes. -/
theorem extract_content_hash_not_normalized_counterexample :
    (extract_content (fun _ => none) (fun _ => 0.0) "2026-02-03T04:05:06"
        "http://h/blog/q" c3soup).map (fun d => d.content_hash) ≠
      some (generate_content_hash c3text) := by
  decide

/-- C7 counterexample: with no selector matches and no body, a single
54-character paragraph is returned as the main content even though no
candidate exceeds 200 characters — the paragraph-concatenation strategy
has no length threshold. -/
theorem extract_main_content_counterexample :
    extract_main_content c7soup = some c7text ∧ ¬ 200 < c7text.length := by
  decide

/-- `is_crawled`'s verdict is `false` exactly when the hash is in neither
the cache nor the backend set. -/
theorem is_crawled_false_iff {f : Frontier} {u : String} :
    (is_crawled f u).1 = false ↔
      hash_url u ∉ f.cache ∧ hash_url u ∉ f.crawledUrls := by
  by_cases h1 : hash_url u ∈ f.cache
  · simp [is_crawled, h1]
  · by_cases h2 : hash_url u ∈ f.crawledUrls
    · simp [is_crawled, h1, h2]
    · simp [is_crawled, h1, h2]

/-- `add_url` on a URL `is_crawled` rejects: the queue gets the `ZADD` and
the metadata is recorded; nothing else changes. -/
theorem add_url_not_crawled (f : Frontier) (u : String) (p : Int)
    (h : (is_crawled f u).1 = false) :
    add_url f u p =
      { f with queue := zadd f.queue u p,
               urlData := hset f.urlData (hash_url u) u } := by
  have he := is_crawled_false_eq h
  simp [add_url, he]

/-- `ZSCORE` right after `ZADD` is the score just written (an existing
entry is overwritten, not maxed). -/
theorem zscore_zadd (q : List (String × Int)) (u : String) (p : Int) :
    zscore (zadd q u p) u = some p := by
  induction q with
  | nil => simp [zadd, zscore]
  | cons e rest ih =>
    by_cases he : (e.1 == u) = true
    · have heq : e.1 = u := by simpa using he
      simp [zadd, zscore, List.any_cons, he, heq, List.find?]
    · rw [Bool.not_eq_true] at he
      have hne : e.1 ≠ u := by simpa using he
      by_cases ha : (rest.any fun x => x.1 == u) = true
      · have hz : zadd (e :: rest) u p =
            e :: rest.map fun x => if x.1 == u then (x.1, p) else x := by
          simp [zadd, List.any_cons, he, ha, hne]
        rw [hz]
        have hz2 : zadd rest u p = rest.map fun x => if x.1 == u then (x.1, p) else x := by
          simp [zadd, ha]
        rw [hz2] at ih
        simpa [zscore, List.find?, he] using ih
      · rw [Bool.not_eq_true] at ha
        have hz : zadd (e :: rest) u p = e :: (rest ++ [(u, p)]) := by
          simp [zadd, List.any_cons, he, ha, hne]
        rw [hz]
        have hz2 : zadd rest u p = rest ++ [(u, p)] := by simp [zadd, ha]
        rw [hz2] at ih
        simpa [zscore, List.find?, he] using ih

/-- C5 (amended): re-adding a not-yet-crawled URL *overwrites* its queued
priority with the new one (`ZADD` default semantics) — a later
low-priority add demotes a high-priority entry instead of keeping the
maximum. -/
theorem add_url_overwrites_priority (f : Frontier) (u : String) (p1 p2 : Int)
    (h : (is_crawled f u).1 = false) :
    zscore ((add_url (add_url f u p1) u p2).queue) u = some p2 := by
  have hf := add_url_not_crawled f u p1 h
  have h1 : (is_crawled (add_url f u p1) u).1 = false := by
    rw [hf, is_crawled_false_iff]
    simpa using is_crawled_false_iff.mp h
  have hg := add_url_not_crawled (add_url f u p1) u p2 h1
  rw [hg, hf]
  exact zscore_zadd _ u p2

/-- Witness for C5's theorem at the empty frontier. -/
theorem add_url_overwrites_priority_witness :
    zscore ((add_url (add_url ⟨[], [], [], []⟩ "http://a" 10) "http://a" 1).queue)
      "http://a" = some 1 :=
  add_url_overwrites_priority ⟨[], [], [], []⟩ "http://a" 10 1 (by rfl)

/-- C5 counterexample: a seed added at priority 10 then re-added at
priority 1 ends queued at priority 1 — not at `max 10 1 = 10` as the
claim states. -/
theorem add_url_priority_counterexample :
    zscore ((add_url (add_url ⟨[], [], [], []⟩ "http://a" 10) "http://a" 1).queue)
        "http://a" = some 1 ∧ (1 : Int) ≠ max 10 1 := by
  decide

/-- The entry `ZPOPMAX` selects is one of the queue's entries. -/
theorem zmax_mem (rest : List (String × Int)) :
    ∀ e, zmax e rest ∈ e :: rest := by
  induction rest with
  | nil => intro e; simp [zmax]
  | cons x xs ih =>
    intro e
    simp only [zmax, List.foldl_cons]
    by_cases h : zgt x e = true
    · simp only [h, if_true]
      have h1 := ih x
      simp only [zmax] at h1
      rcases List.mem_cons.mp h1 with h2 | h2
      · rw [h2]; simp
      · simp [List.mem_cons, h2]
    · simp only [Bool.not_eq_true] at h
      simp only [h, Bool.false_eq_true, if_false]
      have h1 := ih e
      simp only [zmax] at h1
      rcases List.mem_cons.mp h1 with h2 | h2
      · rw [h2]; simp
      · simp [List.mem_cons, h2]

/-- Membership survives `SADD`. -/
theorem sadd_mem {s : List String} {x : String} (h : x ∈ s) (y : String) :
    x ∈ sadd s y := by
  unfold sadd
  by_cases hy : s.contains y = true
  · rw [if_pos hy]; exact h
  · rw [if_neg hy]
    exact List.mem_append_left _ h

/-- The inserted element is in the `SADD` result. -/
theorem sadd_self (s : List String) (y : String) : y ∈ sadd s y := by
  unfold sadd
  by_cases hy : s.contains y = true
  · rw [if_pos hy]
    simpa using hy
  · rw [if_neg hy]
    exact List.mem_append_right _ (List.mem_singleton.mpr rfl)

/-- `add_url` of a URL whose hash is in the hot cache is a no-op. -/
theorem add_url_cache_hit {f : Frontier} {u : String}
    (h : hash_url u ∈ f.cache) (p : Int) : add_url f u p = f := by
  simp [add_url, is_crawled, h]

/-- `add_url` of a URL whose hash is in the backend set only promotes the
hash into the cache. -/
theorem add_url_backend_hit {f : Frontier} {u : String}
    (h1 : hash_url u ∉ f.cache) (h2 : hash_url u ∈ f.crawledUrls) (p : Int) :
    add_url f u p = { f with cache := f.cache ++ [hash_url u] } := by
  simp [add_url, is_crawled, h1, h2]

/-- `ZADD` keys: unchanged when the member was present, else extended by
the member. -/
theorem zadd_map_fst (q : List (String × Int)) (v : String) (p : Int) :
    (zadd q v p).map Prod.fst = q.map Prod.fst ∨
    (zadd q v p).map Prod.fst = q.map Prod.fst ++ [v] := by
  unfold zadd
  by_cases h : (q.any fun e => e.1 == v) = true
  · left
    simp only [h, if_true, List.map_map]
    apply List.map_congr_left
    intro e _
    by_cases he : (e.1 == v) = true
    · simp [Function.comp, he]
    · simp [Function.comp, he]
  · right
    simp [h]

/-- One frontier operation can neither drop `u`'s hash from the visited
sets nor introduce `u` into the queue, as long as the hash is recorded and
`u` is not queued. -/
theorem applyOp_preserves_blocked (u : String) (f : Frontier) (op : FrontierOp)
    (hcr : hash_url u ∈ f.crawledUrls ∨ hash_url u ∈ f.cache)
    (hq : u ∉ f.queue.map Prod.fst) :
    (hash_url u ∈ (applyOp f op).crawledUrls ∨ hash_url u ∈ (applyOp f op).cache) ∧
      u ∉ (applyOp f op).queue.map Prod.fst := by
  cases op with
  | add v p =>
    simp only [applyOp]
    by_cases h1 : hash_url v ∈ f.cache
    · rw [add_url_cache_hit h1]
      exact ⟨hcr, hq⟩
    · by_cases h2 : hash_url v ∈ f.crawledUrls
      · rw [add_url_backend_hit h1 h2]
        refine ⟨?_, hq⟩
        rcases hcr with h | h
        · exact Or.inl h
        · exact Or.inr (List.mem_append_left _ h)
      · have hvu : v ≠ u := by
          intro hvu
          subst hvu
          rcases hcr with h | h
          · exact h2 h
          · exact h1 h
        rw [add_url_not_crawled f v p (is_crawled_false_iff.mpr ⟨h1, h2⟩)]
        refine ⟨hcr, ?_⟩
        intro hmem
        rcases zadd_map_fst f.queue v p with hz | hz
        · rw [hz] at hmem
          exact hq hmem
        · rw [hz] at hmem
          rcases List.mem_append.mp hmem with hm | hm
          · exact hq hm
          · exact hvu (List.mem_singleton.mp hm).symm
  | next =>
    cases hg : f.queue with
    | nil =>
      simp only [applyOp, get_next_url, zpopmax, hg]
      exact ⟨hcr, by simp [hg]⟩
    | cons e qrest =>
      simp only [applyOp, get_next_url, zpopmax, hg]
      refine ⟨hcr, ?_⟩
      intro hmem
      rcases List.mem_map.mp hmem with ⟨x, hx, hx1⟩
      have hx' : x ∈ e :: qrest := List.erase_subset _ _ hx
      apply hq
      rw [hg]
      exact List.mem_map.mpr ⟨x, hx', hx1⟩
  | mark v =>
    simp only [applyOp, mark_crawled]
    refine ⟨?_, hq⟩
    rcases hcr with h | h
    · exact Or.inl (sadd_mem h _)
    · exact Or.inr (sadd_mem h _)

/-- Core induction for C2: from a state whose visited sets record `u` and
whose queue lacks `u`, no operation sequence ever outputs `u` from `next`
or re-enqueues it. -/
theorem nextOutputs_blocked (u : String) :
    ∀ (ops : List FrontierOp) (f : Frontier),
      (hash_url u ∈ f.crawledUrls ∨ hash_url u ∈ f.cache) →
      u ∉ f.queue.map Prod.fst →
      u ∉ nextOutputs f ops ∧ u ∉ (runOps f ops).queue.map Prod.fst := by
  intro ops
  induction ops with
  | nil =>
    intro f hcr hq
    exact ⟨by simp [nextOutputs], by simpa [runOps] using hq⟩
  | cons op rest ih =>
    intro f hcr hq
    have hpres := applyOp_preserves_blocked u f op hcr hq
    have hrec := ih (applyOp f op) hpres.1 hpres.2
    refine ⟨?_, by simpa [runOps] using hrec.2⟩
    cases op with
    | add v p =>
      simpa [nextOutputs] using hrec.1
    | mark v =>
      simpa [nextOutputs] using hrec.1
    | next =>
      cases hg : f.queue with
      | nil =>
        have happ : applyOp f FrontierOp.next = f := by
          simp [applyOp, get_next_url, zpopmax, hg]
        rw [happ] at hrec
        simpa [nextOutputs, get_next_url, zpopmax, hg] using hrec.1
      | cons e qrest =>
        have happ : applyOp f FrontierOp.next =
            { f with queue := (e :: qrest).erase (zmax e qrest) } := by
          simp [applyOp, get_next_url, zpopmax, hg]
        rw [happ] at hrec
        have hhead : (zmax e qrest).1 ≠ u := by
          intro hh
          apply hq
          rw [hg]
          exact List.mem_map.mpr ⟨zmax e qrest, zmax_mem qrest e, hh⟩
        simp only [nextOutputs, get_next_url, zpopmax, hg]
        intro hmem
        rcases List.mem_cons.mp hmem with hm | hm
        · exact hhead hm.symm
        · exact hrec.1 hm

/-- C2 (amended): once `mark_crawled(u)` has been issued, every later
`add(u)` is a no-op, and — provided `u` was no longer in the queue when it
was marked, as when it was just popped by `next()` — no later `next()`
returns `u` and `u` never re-enters the queue.  (`mark_crawled` does not
remove `u` from the queue itself, so a `u` still queued at mark time can
be popped once more; see the counterexample.) -/
theorem frontier_marked_never_returned (f : Frontier) (u : String)
    (ops : List FrontierOp) (hq : u ∉ f.queue.map Prod.fst) :
    (∀ (g : Frontier) (p : Int), hash_url u ∈ g.crawledUrls →
        (add_url g u p).queue = g.queue) ∧
    u ∉ nextOutputs (mark_crawled f u) ops ∧
    u ∉ (runOps (mark_crawled f u) ops).queue.map Prod.fst := by
  refine ⟨?_, ?_⟩
  · intro g p hg
    by_cases h1 : hash_url u ∈ g.cache
    · rw [add_url_cache_hit h1]
    · rw [add_url_backend_hit h1 hg]
  apply nextOutputs_blocked
  · exact Or.inl (sadd_self _ _)
  · simpa [mark_crawled] using hq

/-- Witness for C2's theorem: a marked URL is never output across a
subsequent re-add and pop. -/
theorem frontier_marked_never_returned_witness :
    "http://a" ∉ nextOutputs (mark_crawled ⟨[("http://b", 5)], [], [], []⟩ "http://a")
      [FrontierOp.add "http://a" 1, FrontierOp.next] :=
  (frontier_marked_never_returned ⟨[("http://b", 5)], [], [], []⟩ "http://a"
    [FrontierOp.add "http://a" 1, FrontierOp.next] (by decide)).2.1

/-- C2 counterexample: `mark_crawled` does not remove the URL from the
queue, so `add u; mark_crawled u; next` still returns `u` — after its
`mark_crawled` — contradicting the claim as stated. -/
theorem frontier_next_after_mark_counterexample :
    nextOutputs ⟨[], [], [], []⟩
      [FrontierOp.add "http://a" 1, FrontierOp.mark "http://a", FrontierOp.next] =
      ["http://a"] := by
  decide

/-- One frontier operation preserves "every cached hash is in the backend
set": `mark_crawled` inserts into both, and `is_crawled` promotes a hash
into the cache only after the backend confirmed membership. -/
theorem applyOp_cache_subset (f : Frontier) (op : FrontierOp)
    (h : ∀ x ∈ f.cache, x ∈ f.crawledUrls) :
    ∀ x ∈ (applyOp f op).cache, x ∈ (applyOp f op).crawledUrls := by
  cases op with
  | add v p =>
    simp only [applyOp]
    by_cases h1 : hash_url v ∈ f.cache
    · rw [add_url_cache_hit h1]
      exact h
    · by_cases h2 : hash_url v ∈ f.crawledUrls
      · rw [add_url_backend_hit h1 h2]
        intro x hx
        rcases List.mem_append.mp hx with hx | hx
        · exact h x hx
        · rw [List.mem_singleton.mp hx]
          exact h2
      · rw [add_url_not_crawled f v p (is_crawled_false_iff.mpr ⟨h1, h2⟩)]
        exact h
  | next =>
    cases hg : f.queue with
    | nil =>
      simp only [applyOp, get_next_url, zpopmax, hg]
      exact h
    | cons e qrest =>
      simp only [applyOp, get_next_url, zpopmax, hg]
      exact h
  | mark v =>
    simp only [applyOp, mark_crawled]
    intro x hx
    unfold sadd at hx
    by_cases hy : f.cache.contains (hash_url v) = true
    · rw [if_pos hy] at hx
      exact sadd_mem (h x hx) _
    · rw [if_neg hy] at hx
      rcases List.mem_append.mp hx with hx | hx
      · exact sadd_mem (h x hx) _
      · rw [List.mem_singleton.mp hx]
        exact sadd_self _ _

/-- C10: across any sequence of frontier operations whose backend calls
succeed, the in-process hot cache stays a subset of the backend
`crawled_urls` set — a hash enters the cache only together with, or after
confirmation of, backend membership. -/
theorem cache_subset_of_backend (ops : List FrontierOp) :
    ∀ f : Frontier, (∀ x ∈ f.cache, x ∈ f.crawledUrls) →
      ∀ x ∈ (runOps f ops).cache, x ∈ (runOps f ops).crawledUrls := by
  induction ops with
  | nil =>
    intro f h
    simpa [runOps] using h
  | cons op rest ih =>
    intro f h
    have := ih (applyOp f op) (applyOp_cache_subset f op h)
    simpa [runOps] using this

/-- Witness for C10's theorem: after an `add` that promotes a
backend-confirmed hash into the cache, the cached hash is indeed in the
backend set. -/
theorem cache_subset_of_backend_witness :
    hash_url "http://a" ∈
      (runOps ⟨[], [hash_url "http://a"], [], []⟩ [FrontierOp.add "http://a" 1]).crawledUrls :=
  cache_subset_of_backend [FrontierOp.add "http://a" 1]
    ⟨[], [hash_url "http://a"], [], []⟩ (by simp)
    (hash_url "http://a") (by decide)

/-- Strategy 1 of body selection, reformulated: the first selector-derived
text over 200 characters, scanning selectors in order. -/
theorem firstSelectorContent_eq (soup : Soup) (sels : List String) :
    firstSelectorContent soup sels =
      (sels.filterMap fun sel => (soup.selectOne sel).map (·.text)).find?
        fun t => 200 < t.length := by
  induction sels with
  | nil => rfl
  | cons sel rest ih =>
    cases hs : soup.selectOne sel with
    | none => simp [firstSelectorContent, List.filterMap_cons, hs, ih]
    | some e =>
      by_cases hl : 200 < e.text.length
      · simp [firstSelectorContent, List.filterMap_cons, hs, hl, List.find?_cons]
      · simp [firstSelectorContent, List.filterMap_cons, hs, hl, List.find?_cons, ih]

/-- C7 (amended): body selection tries, in order, the CSS selector
candidates (returning the first whose text exceeds 200 characters), then
the join of the `<p>` texts longer than 50 characters — returned whenever
at least one such paragraph exists, with *no* 200-character requirement —
then the whole body text when it exceeds 200 characters; otherwise
`none`. -/
theorem extract_main_content_follows_amended (soup : Soup) :
    extract_main_content soup = extract_main_content_amended soup := by
  unfold extract_main_content extract_main_content_amended
  rw [firstSelectorContent_eq]
  cases hf : (content_selectors.filterMap fun sel => (soup.selectOne sel).map (·.text)).find?
      (fun t => 200 < t.length) with
  | some t => rfl
  | none =>
    by_cases hp : soup.paragraphs.isEmpty = true
    · have hb : ((soup.paragraphs.map (·.text)).filter fun t => 50 < t.length).isEmpty = true := by
        cases hps : soup.paragraphs with
        | nil => simp
        | cons a l => rw [hps] at hp; simp at hp
      simp [hp, hb]
    · by_cases hb : ((soup.paragraphs.map (·.text)).filter fun t => 50 < t.length).isEmpty = true
      · simp [hp, hb]
      · simp [hp, hb]

/-- A bind of an `Except` value into `pure` is the value itself. -/
theorem except_bind_pure {α : Type} (e : Except String α) :
    (do let x ← e; return x) = e := by
  cases e <;> rfl

/-- Binding a successful `Except` value applies the continuation. -/
theorem except_ok_bind {α β : Type} (a : α) (f : α → Except String β) :
    (Except.ok a >>= f) = f a := rfl

/-- C8: a candidate link whose parsed path ends (case-insensitively) with
an excluded extension, or which matches none of the useful URL patterns,
is rejected by `_is_valid_crawl_url` — for *every* validity predicate —
and its occurrences contribute nothing to the enqueued link list. -/
theorem invalid_crawl_url_not_enqueued (env : PyEnv) (isValid : String → Bool)
    (url : String) (p : UrlParts) (hp : urlparse env url = Except.ok p)
    (hbad : EXCLUDED_EXTENSIONS.any (fun ext => pyEndsWith (pyLower p.path) ext) = true ∨
            USEFUL_URL_PATTERNS.any (fun pat => searchCI pat url) = false) :
    is_valid_crawl_url env isValid url = Except.ok false ∧
    ∀ us : List String,
      extract_urls env isValid us = extract_urls env isValid (us.filter (· != url)) := by
  have hmain : is_valid_crawl_url env isValid url = Except.ok false := by
    unfold is_valid_crawl_url
    by_cases hv : isValid url = true
    · simp only [hv, Bool.not_true, Bool.false_eq_true, if_false]
      rw [hp, except_ok_bind]
      by_cases hext : EXCLUDED_EXTENSIONS.any (fun ext => pyEndsWith (pyLower p.path) ext) = true
      · simp [hext]
        rfl
      · rcases hbad with hb | hb
        · exact absurd hb hext
        · simp [hext, hb]
          rfl
    · rw [Bool.not_eq_true] at hv
      simp [hv]
  refine ⟨hmain, ?_⟩
  intro us
  induction us with
  | nil => rfl
  | cons v vs ih =>
    by_cases hv : v = url
    · subst hv
      have hfeq : (v :: vs).filter (· != v) = vs.filter (· != v) := by
        simp [List.filter_cons]
      rw [hfeq]
      show (do
          let ok ← is_valid_crawl_url env isValid v
          let tail ← extract_urls env isValid vs
          if ok then return (normalize_url env v :: tail) else return tail) = _
      rw [hmain, except_ok_bind]
      simp only [Bool.false_eq_true, if_false]
      rw [except_bind_pure]
      exact ih
    · have hkeep : (· != url) v = true := by simpa using hv
      have hfeq : (v :: vs).filter (· != url) = v :: vs.filter (· != url) := by
        simp [List.filter_cons, hkeep]
      rw [hfeq]
      show (do
          let ok ← is_valid_crawl_url env isValid v
          let tail ← extract_urls env isValid vs
          if ok then return (normalize_url env v :: tail) else return tail) =
        (do
          let ok ← is_valid_crawl_url env isValid v
          let tail ← extract_urls env isValid (vs.filter (· != url))
          if ok then return (normalize_url env v :: tail) else return tail)
      rw [ih]

/-- Witness for C8's theorem: `http://x.com/file.pdf` is rejected. -/
theorem invalid_crawl_url_not_enqueued_witness :
    is_valid_crawl_url env0 (fun _ => true) "http://x.com/file.pdf" = Except.ok false :=
  (invalid_crawl_url_not_enqueued env0 (fun _ => true) "http://x.com/file.pdf"
    ⟨"http", "x.com", "/file.pdf", "", "", ""⟩ (by rfl) (Or.inl (by rfl))).1

/-- Membership in the first-occurrence fold: an element is in the result
iff it is in the accumulator or in the traversed list. -/
theorem firstOcc_fold_mem {α : Type} [BEq α] [LawfulBEq α] (ys : List α) :
    ∀ (acc : List α) (x : α),
      (x ∈ ys.foldl (fun acc l => if acc.contains l then acc else acc ++ [l]) acc) ↔
        x ∈ acc ∨ x ∈ ys := by
  induction ys with
  | nil => intro acc x; simp
  | cons y ys ih =>
    intro acc x
    rw [List.foldl_cons]
    by_cases h : acc.contains y = true
    · rw [if_pos h, ih]
      have hy : y ∈ acc := by simpa using h
      constructor
      · rintro (h1 | h1)
        · exact Or.inl h1
        · exact Or.inr (List.mem_cons_of_mem _ h1)
      · rintro (h1 | h1)
        · exact Or.inl h1
        · rcases List.mem_cons.mp h1 with rfl | h2
          · exact Or.inl hy
          · exact Or.inr h2
    · rw [if_neg h, ih]
      constructor
      · rintro (h1 | h1)
        · rcases List.mem_append.mp h1 with h2 | h2
          · exact Or.inl h2
          · rcases List.mem_singleton.mp h2 with rfl
            exact Or.inr (List.mem_cons_self _ _)
        · exact Or.inr (List.mem_cons_of_mem _ h1)
      · rintro (h1 | h1)
        · exact Or.inl (List.mem_append_left _ h1)
        · rcases List.mem_cons.mp h1 with rfl | h2
          · exact Or.inl (List.mem_append_right _ (List.mem_singleton.mpr rfl))
          · exact Or.inr h2

/-- `firstOccurrences` has exactly the elements of its input. -/
theorem mem_firstOccurrences {α : Type} [BEq α] [LawfulBEq α] (ys : List α) (x : α) :
    x ∈ firstOccurrences ys ↔ x ∈ ys := by
  unfold firstOccurrences
  rw [firstOcc_fold_mem]
  simp

/-- Appending one element to the input of `firstOccurrences`. -/
theorem firstOccurrences_append_single {α : Type} [BEq α] [LawfulBEq α]
    (ys : List α) (r : α) :
    firstOccurrences (ys ++ [r]) =
      if r ∈ ys then firstOccurrences ys else firstOccurrences ys ++ [r] := by
  unfold firstOccurrences
  rw [List.foldl_append]
  simp only [List.foldl_cons, List.foldl_nil]
  by_cases h : r ∈ ys
  · have hc : (ys.foldl (fun acc l => if acc.contains l then acc else acc ++ [l]) []).contains r = true := by
      have hm : r ∈ firstOccurrences ys := (mem_firstOccurrences ys r).mpr h
      unfold firstOccurrences at hm
      simpa using hm
    rw [if_pos hc, if_pos h]
  · have hc : ¬ (ys.foldl (fun acc l => if acc.contains l then acc else acc ++ [l]) []).contains r = true := by
      intro hcc
      have hm : r ∈ firstOccurrences ys := by
        unfold firstOccurrences
        simpa using hcc
      exact h ((mem_firstOccurrences ys r).mp hm)
    rw [if_neg hc, if_neg h]

/-- One step of the `GROUP BY` fold, on an accumulator in characteristic
form: incrementing (or creating) `r`'s group matches extending the row
list by `r`. -/
theorem groupCounts_step (ys : List (List String)) (r : List String) :
    (if ((firstOccurrences ys).map fun l => (l, ys.count l)).any (·.1 == r)
     then ((firstOccurrences ys).map fun l => (l, ys.count l)).map
            fun e => if e.1 == r then (e.1, e.2 + 1) else e
     else ((firstOccurrences ys).map fun l => (l, ys.count l)) ++ [(r, 1)])
      = (firstOccurrences (ys ++ [r])).map fun l => (l, (ys ++ [r]).count l) := by
  by_cases h : r ∈ ys
  · have hany : ((firstOccurrences ys).map fun l => (l, ys.count l)).any (·.1 == r) = true := by
      rw [List.any_eq_true]
      refine ⟨(r, ys.count r), List.mem_map.mpr ⟨r, (mem_firstOccurrences ys r).mpr h, rfl⟩, ?_⟩
      simp
    rw [if_pos hany, firstOccurrences_append_single, if_pos h, List.map_map]
    apply List.map_congr_left
    intro l hl
    by_cases hlr : (l == r) = true
    · have hleq : l = r := by simpa using hlr
      subst hleq
      simp [Function.comp, List.count_append]
    · have hlne : l ≠ r := by simpa using hlr
      have hrl : [r].count l = 0 := by
        rw [List.count_eq_zero]
        simp [List.mem_singleton]
        exact fun hx => absurd hx hlne
      simp [Function.comp, hlr, List.count_append, hrl]
  · have hcond : ¬ (((firstOccurrences ys).map fun l => (l, ys.count l)).any (·.1 == r) = true) := by
      rw [List.any_eq_true]
      rintro ⟨e, hmem, hbe⟩
      rcases List.mem_map.mp hmem with ⟨l2, hl2, rfl⟩
      have hys : l2 ∈ ys := (mem_firstOccurrences ys l2).mp hl2
      have hl2r : l2 = r := by simpa using hbe
      exact h (hl2r ▸ hys)
    rw [if_neg hcond, firstOccurrences_append_single, if_neg h, List.map_append]
    congr 1
    · apply List.map_congr_left
      intro l hl
      have hlys : l ∈ ys := (mem_firstOccurrences ys l).mp hl
      have hlne : l ≠ r := fun heq => h (heq ▸ hlys)
      have hrl : [r].count l = 0 := by
        rw [List.count_eq_zero]
        simp [List.mem_singleton]
        exact fun hx => absurd hx hlne
      simp [List.count_append, hrl]
    · have hys : ys.count r = 0 := List.count_eq_zero.mpr h
      simp [List.count_append, hys]

/-- The `GROUP BY` fold computes, in first-occurrence order, each distinct
tag list paired with its number of rows. -/
theorem groupCounts_eq (store : List ContentData) :
    groupCounts store =
      (firstOccurrences (taggedRows store)).map
        fun l => (l, (taggedRows store).count l) := by
  have main : ∀ (rows ys : List (List String)),
      rows.foldl
        (fun acc l =>
          if acc.any (·.1 == l) then acc.map fun e => if e.1 == l then (e.1, e.2 + 1) else e
          else acc ++ [(l, 1)])
        ((firstOccurrences ys).map fun l => (l, ys.count l))
      = (firstOccurrences (ys ++ rows)).map fun l => (l, (ys ++ rows).count l) := by
    intro rows
    induction rows with
    | nil => intro ys; simp
    | cons r rs ih =>
      intro ys
      rw [List.foldl_cons, groupCounts_step]
      have := ih (ys ++ [r])
      simpa using this
  have h0 := main (taggedRows store) []
  simpa [groupCounts, firstOccurrences] using h0

/-- C9 (amended): `get_stats`'s `top_tags` groups rows by their *exact*
tag-list value, counts rows per distinct list, takes the 10 most frequent
lists, and lists each group's tags paired with that group's row count,
truncated to 10 entries — it does not sum occurrences per individual
tag. -/
theorem get_stats_top_tags_groups_by_exact_list (store : List ContentData) :
    get_stats_top_tags store = top_tags_amended store := by
  unfold get_stats_top_tags top_tags_amended
  rw [groupCounts_eq]
  rfl

/-- C9 counterexample: on a store with rows tagged `[a, b]`, `[a]`, `[a]`
the code yields `[(a, 2), (a, 1), (b, 1)]`, not the per-tag totals
`[(a, 3), (b, 1)]` the claim describes. -/
theorem get_stats_top_tags_counterexample :
    get_stats_top_tags c9store ≠ top_tags_claimed c9store := by
  decide

end WebCrawler
